import Mathlib

/-!
Verification development for `qr_grid_generator.py`.

The file shallowly embeds the parts of the program the specification talks
about: the page-layout computation and pagination loop of `generate_html`
(lines 94-109 and 203-229 of the source), the QR/logo composition of
`create_qr_with_logo` (lines 41-85), the logo download of `download_image`
(lines 24-39), and the configuration update of `update_json_from_csv`
(lines 240-260).  External-library behaviour (Pillow images, HTTP) is
modelled at the level of detail the source relies on.
-/

namespace QRGrid

/-! ## Page layout dimensions (source lines 94-109)

The source computes, from the configuration values `xsize` (qr_width) and
`ysize` (qr_height):

    mm_to_px = 3.78, print_margin_mm = 6
    available_width  = int((210 - 2*6) * 3.78)   = 748
    available_height = int((297 - 2*6) * 3.78)   = 1077
    cell_height      = qr_height + 20
    cols             = math.floor(available_width / qr_width)
    max_rows_per_page = math.floor(available_height / cell_height)

`3.78` is represented exactly as `378 / 100`; the Python float products
`198 * 3.78 = 748.44...` and `285 * 3.78 = 1077.3...` are far enough from
the next integers that `int` truncation agrees with the exact rational
floor, and `math.floor` of the float quotient agrees with natural-number
division for any representable positive divisor of this magnitude. -/

/-- Value of the scale constant `mm_to_px = 3.78`, scaled by 100 so the
computation is exact over the naturals. -/
def mm_to_px_centi : Nat := 378

/-- Source: `print_margin_mm = 6`. -/
def print_margin_mm : Nat := 6

/-- Source: `available_width = int((210 - 2 * print_margin_mm) * mm_to_px)`. -/
def available_width : Nat := (210 - 2 * print_margin_mm) * mm_to_px_centi / 100

/-- Source: `available_height = int((297 - 2 * print_margin_mm) * mm_to_px)`. -/
def available_height : Nat := (297 - 2 * print_margin_mm) * mm_to_px_centi / 100

/-- Source: `cell_height = qr_height + 20` (QR height plus title space). -/
def cell_height (qr_height : Nat) : Nat := qr_height + 20

/-- Source: `cols = math.floor(available_width / qr_width)`. -/
def cols (qr_width : Nat) : Nat := available_width / qr_width

/-- Source: `max_rows_per_page = math.floor(available_height / cell_height)`. -/
def max_rows_per_page (qr_height : Nat) : Nat :=
  available_height / cell_height qr_height

/-! ## Pagination loop (source lines 203-229)

The source builds the document with a `while current_index < len(qr_codes)`
loop; each iteration emits one page consisting of exactly
`max_rows_per_page` table rows of exactly `cols` table cells, filling cells
with the next batch items in order and emitting an empty placeholder
`<td>` once the items run out.

The embedding represents a page as rows of `Option`-slots (`some c` a
populated cell, `none` the placeholder) and the loop as a fuel-indexed
function: one unit of fuel per loop iteration.  `paginateAux ... = none`
means the `while` loop has not finished within the given number of
iterations; since the loop body is deterministic and consumes cells
monotonically, `none` for every fuel value means the loop never
terminates. -/

/-- One table page: a list of rows, each row a list of slots. -/
abbrev GridPage (α : Type) := List (List (Option α))

/-- One table row (inner `for j in range(cols)` loop, lines 213-225):
take the next `cols` cells from the remaining batch, emitting a `none`
placeholder for every slot once the batch is exhausted.  Returns the row
and the remaining cells. -/
def fillRow {α : Type} : Nat → List α → List (Option α) × List α
  | 0, cs => ([], cs)
  | n + 1, [] =>
    let p := fillRow n ([] : List α)
    (none :: p.1, p.2)
  | n + 1, c :: cs =>
    let p := fillRow n cs
    (some c :: p.1, p.2)

/-- One full page (outer `for i in range(max_rows_per_page)` loop, lines
210-227): `rows` rows of `cols` slots each, consuming cells in order. -/
def fillPage {α : Type} : Nat → Nat → List α → List (List (Option α)) × List α
  | 0, _, cs => ([], cs)
  | r + 1, cols, cs =>
    let row := fillRow cols cs
    let rest := fillPage r cols row.2
    (row.1 :: rest.1, rest.2)

/-- The `while current_index < len(qr_codes)` loop (lines 205-229), with
explicit fuel bounding the number of iterations.  `none` means the fuel ran
out with the loop condition still true. -/
def paginateAux {α : Type} (cols rows : Nat) : Nat → List α → Option (List (GridPage α))
  | _, [] => some []
  | 0, _ :: _ => none
  | fuel + 1, c :: cs =>
    let pg := fillPage rows cols (c :: cs)
    match paginateAux cols rows fuel pg.2 with
    | some ps => some (pg.1 :: ps)
    | none => none

/-- The pagination performed by `generate_html`: run the loop with enough
fuel for every terminating execution (each iteration of a non-degenerate
grid consumes at least one cell, so `cells.length` iterations suffice;
a degenerate grid consumes nothing and yields `none`). -/
def generate_pages {α : Type} (cols rows : Nat) (cells : List α) :
    Option (List (GridPage α)) :=
  paginateAux cols rows cells.length cells

/-- With zero columns a row consumes nothing. -/
theorem fillRow_zero {α : Type} (cs : List α) : fillRow 0 cs = ([], cs) := rfl

/-- With zero columns a page consumes nothing. -/
theorem fillPage_zero_cols {α : Type} (rows : Nat) (cs : List α) :
    (fillPage rows 0 cs).2 = cs := by
  induction rows with
  | zero => rfl
  | succ r ih => simpa [fillPage, fillRow] using ih

/-- With zero rows a page consumes nothing. -/
theorem fillPage_zero_rows {α : Type} (cols : Nat) (cs : List α) :
    (fillPage 0 cols cs).2 = cs := rfl

theorem paginateAux_zero_cols {α : Type} (rows fuel : Nat) (c : α) (cs : List α) :
    paginateAux 0 rows fuel (c :: cs) = none := by
  induction fuel generalizing c cs with
  | zero => rfl
  | succ fuel ih =>
    simp only [paginateAux, fillPage_zero_cols]
    rw [ih c cs]

theorem paginateAux_zero_rows {α : Type} (cols fuel : Nat) (c : α) (cs : List α) :
    paginateAux cols 0 fuel (c :: cs) = none := by
  induction fuel generalizing c cs with
  | zero => rfl
  | succ fuel ih =>
    simp only [paginateAux, fillPage_zero_rows]
    rw [ih c cs]

/-- C1: the code contains no degenerate-grid check at all.  When the cell
is too large for the page (e.g. `qr_width = 800 > available_width = 748`)
the derived grid has `cols = 0`, and the pagination `while` loop never
advances `current_index`: for every amount of fuel it is still running, so
it never terminates, never raises any error, and never reaches the code
that writes the output file.  The same holds for `rowsPerPage = 0`.  This
refutes the claimed `LayoutError`-before-rendering behaviour: the code
instead loops forever. -/
theorem degenerate_grid_loops_forever :
    cols 800 = 0 ∧
    (∀ (α : Type) (rows fuel : Nat) (c : α) (cs : List α),
      paginateAux 0 rows fuel (c :: cs) = none) ∧
    (∀ (α : Type) (k fuel : Nat) (c : α) (cs : List α),
      paginateAux k 0 fuel (c :: cs) = none) ∧
    generate_pages (cols 800) (max_rows_per_page 300) [()] = none := by
  refine ⟨by decide, ?_, ?_, ?_⟩
  · intro α rows fuel c cs
    exact paginateAux_zero_cols rows fuel c cs
  · intro α k fuel c cs
    exact paginateAux_zero_rows k fuel c cs
  · have h : cols 800 = 0 := by decide
    rw [generate_pages, h]
    exact paginateAux_zero_cols _ _ _ _

/-! ## Characterisation of the pagination loop

Proof-side descriptions of what the loop computes, phrased by direct
indexing; the theorems below establish that the loop agrees with them. -/

/-- Number of pages the loop emits for `n` cells and `cpp = cols * rows`
slots per page: the natural-number form of `ceil(n / cpp)`. -/
def pageCount (cpp n : Nat) : Nat := (n + cpp - 1) / cpp

/-- Page `p` of the paged document, described by direct indexing into the
cell list: slot `(i, j)` holds cell `p * cellsPerPage + i * cols + j` when
that index is in range and a placeholder otherwise. -/
def specPage {α : Type} (cols rows : Nat) (cells : List α) (p : Nat) : GridPage α :=
  (List.range rows).map fun i =>
    (List.range cols).map fun j => cells[p * (cols * rows) + i * cols + j]?

/-- The whole paged document, described by direct indexing. -/
def pagesSpec {α : Type} (cols rows : Nat) (cells : List α) : List (GridPage α) :=
  (List.range (pageCount (cols * rows) cells.length)).map (specPage cols rows cells)

theorem fillRow_snd {α : Type} (n : Nat) (cs : List α) :
    (fillRow n cs).2 = cs.drop n := by
  induction n generalizing cs with
  | zero => simp [fillRow]
  | succ n ih =>
    cases cs with
    | nil => simp [fillRow, ih]
    | cons c cs => simp [fillRow, ih]

theorem fillRow_fst {α : Type} (n : Nat) (cs : List α) :
    (fillRow n cs).1 = (List.range n).map fun j => cs[j]? := by
  induction n generalizing cs with
  | zero => simp [fillRow]
  | succ n ih =>
    cases cs with
    | nil => simp [fillRow, ih, List.range_succ_eq_map, List.map_map, Function.comp_def]
    | cons c cs => simp [fillRow, ih, List.range_succ_eq_map, List.map_map, Function.comp_def]

theorem fillPage_snd {α : Type} (r cols : Nat) (cs : List α) :
    (fillPage r cols cs).2 = cs.drop (r * cols) := by
  induction r generalizing cs with
  | zero => simp [fillPage]
  | succ r ih =>
    simp only [fillPage, fillRow_snd, ih, List.drop_drop]
    congr 1
    rw [Nat.succ_mul]
    omega

theorem fillPage_fst {α : Type} (r cols : Nat) (cs : List α) :
    (fillPage r cols cs).1 = (List.range r).map fun i =>
      (List.range cols).map fun j => cs[i * cols + j]? := by
  induction r generalizing cs with
  | zero => simp [fillPage]
  | succ r ih =>
    rw [List.range_succ_eq_map]
    simp only [fillPage, fillRow_snd, fillRow_fst, ih, List.map_cons, List.map_map]
    have hfun : ((fun i => (List.range cols).map fun j => cs[i * cols + j]?) ∘ Nat.succ)
        = fun i => (List.range cols).map fun j => (cs.drop cols)[i * cols + j]? := by
      funext i
      simp only [Function.comp]
      have hidx : (fun j => cs[(i + 1) * cols + j]?)
          = fun j => (cs.drop cols)[i * cols + j]? := by
        funext j
        rw [List.getElem?_drop]
        congr 1
        rw [Nat.succ_mul]
        omega
      rw [hidx]
    rw [hfun]
    congr 1
    have hzero : (fun j => cs[0 * cols + j]?) = fun j => cs[j]? := by
      funext j
      congr 1
      omega
    rw [hzero]

theorem pageCount_zero {cpp : Nat} (h : 0 < cpp) : pageCount cpp 0 = 0 := by
  unfold pageCount
  exact Nat.div_eq_of_lt (by omega)

theorem pageCount_succ {cpp n : Nat} (hcpp : 0 < cpp) (hn : 0 < n) :
    pageCount cpp n = pageCount cpp (n - cpp) + 1 := by
  unfold pageCount
  have h1 : n + cpp - 1 = (n - 1) + cpp := by omega
  rw [h1, Nat.add_div_right _ hcpp]
  rcases Nat.lt_or_ge cpp n with h | h
  · have h2 : n - cpp + cpp - 1 = (n - cpp - 1) + cpp := by omega
    have h3 : n - 1 = (n - cpp - 1) + cpp := by omega
    rw [h2, h3, Nat.add_div_right _ hcpp]
  · have h2 : n - cpp = 0 := by omega
    have h3 : (n - 1) / cpp = 0 := Nat.div_eq_of_lt (by omega)
    have h4 : (0 + cpp - 1) / cpp = 0 := Nat.div_eq_of_lt (by omega)
    rw [h2, h3, h4]

theorem specPage_zero {α : Type} (cols rows : Nat) (cells : List α) :
    specPage cols rows cells 0 = (fillPage rows cols cells).1 := by
  rw [fillPage_fst]
  unfold specPage
  have hfun : ∀ i : Nat, (fun j => cells[0 * (cols * rows) + i * cols + j]?)
      = fun j => cells[i * cols + j]? := by
    intro i
    funext j
    congr 1
    omega
  refine List.map_congr_left fun i _ => ?_
  rw [hfun i]

theorem specPage_succ {α : Type} (cols rows : Nat) (cells : List α) (p : Nat) :
    specPage cols rows cells (p + 1) = specPage cols rows (cells.drop (cols * rows)) p := by
  unfold specPage
  have h : (fun i => (List.range cols).map fun j =>
      (cells.drop (cols * rows))[p * (cols * rows) + i * cols + j]?)
      = fun i => (List.range cols).map fun j =>
        cells[(p + 1) * (cols * rows) + i * cols + j]? := by
    funext i
    have h2 : (fun j => (cells.drop (cols * rows))[p * (cols * rows) + i * cols + j]?)
        = fun j => cells[(p + 1) * (cols * rows) + i * cols + j]? := by
      funext j
      rw [List.getElem?_drop]
      congr 1
      rw [Nat.succ_mul]
      omega
    rw [h2]
  rw [h]

theorem pagesSpec_nil {α : Type} {cols rows : Nat} (hc : 0 < cols) (hr : 0 < rows) :
    pagesSpec cols rows ([] : List α) = [] := by
  unfold pagesSpec
  rw [List.length_nil, pageCount_zero (Nat.mul_pos hc hr)]
  rfl

theorem pagesSpec_cons {α : Type} {cols rows : Nat} (hc : 0 < cols) (hr : 0 < rows)
    (c : α) (cs : List α) :
    pagesSpec cols rows (c :: cs) =
      (fillPage rows cols (c :: cs)).1 ::
        pagesSpec cols rows ((c :: cs).drop (cols * rows)) := by
  have hcpp : 0 < cols * rows := Nat.mul_pos hc hr
  unfold pagesSpec
  rw [pageCount_succ hcpp (by simp), List.range_succ_eq_map, List.map_cons, List.map_map]
  congr 1
  · exact specPage_zero cols rows (c :: cs)
  · rw [List.length_drop]
    refine List.map_congr_left fun p _ => ?_
    have : (specPage cols rows (c :: cs) ∘ Nat.succ) p
        = specPage cols rows (c :: cs) (p + 1) := rfl
    rw [this, specPage_succ]

theorem paginateAux_eq {α : Type} {cols rows : Nat} (hc : 0 < cols) (hr : 0 < rows) :
    ∀ (fuel : Nat) (cells : List α), cells.length ≤ fuel →
      paginateAux cols rows fuel cells = some (pagesSpec cols rows cells) := by
  intro fuel
  induction fuel with
  | zero =>
    intro cells hlen
    have hnil : cells = [] := List.length_eq_zero.mp (Nat.le_zero.mp hlen)
    subst hnil
    rw [pagesSpec_nil hc hr]
    rfl
  | succ fuel ih =>
    intro cells hlen
    cases cells with
    | nil =>
      rw [pagesSpec_nil hc hr]
      rfl
    | cons c cs =>
      have hcpp : 0 < cols * rows := Nat.mul_pos hc hr
      have hdroplen : ((c :: cs).drop (rows * cols)).length ≤ fuel := by
        rw [List.length_drop]
        simp only [List.length_cons] at hlen ⊢
        have hcomm : rows * cols = cols * rows := Nat.mul_comm rows cols
        omega
      show (match paginateAux cols rows fuel (fillPage rows cols (c :: cs)).2 with
        | some ps => some ((fillPage rows cols (c :: cs)).1 :: ps)
        | none => none) = some (pagesSpec cols rows (c :: cs))
      rw [fillPage_snd, ih _ hdroplen]
      rw [pagesSpec_cons hc hr]
      have hcomm : (c :: cs).drop (rows * cols) = (c :: cs).drop (cols * rows) := by
        rw [Nat.mul_comm]
      rw [hcomm]

/-- The pagination of `generate_html` (for a non-degenerate grid) produces
exactly the direct-indexing paged document. -/
theorem generate_pages_eq {α : Type} {cols rows : Nat} (hc : 0 < cols) (hr : 0 < rows)
    (cells : List α) :
    generate_pages cols rows cells = some (pagesSpec cols rows cells) :=
  paginateAux_eq hc hr cells.length cells (Nat.le_refl _)

/-! ## Slot counting: populated cells vs. empty placeholders -/

/-- Number of empty placeholder slots (`none`, the empty `<td>` of line
225) in a page. -/
def placeholderCount {α : Type} (pg : GridPage α) : Nat :=
  (pg.map fun row => row.countP fun s => s.isNone).sum

/-- Number of populated slots (cells carrying an image and label) in a
page. -/
def populatedCount {α : Type} (pg : GridPage α) : Nat :=
  (pg.map fun row => row.countP fun s => s.isSome).sum

theorem countP_isSome_row {α : Type} (cells : List α) (k n : Nat) :
    ((List.range n).map fun j => cells[k + j]?).countP (fun s => s.isSome)
      = min n (cells.length - k) := by
  induction n with
  | zero => simp
  | succ n ih =>
    rw [List.range_succ, List.map_append, List.countP_append, ih]
    simp only [List.map_cons, List.map_nil]
    by_cases h : k + n < cells.length
    · rw [List.getElem?_eq_getElem h]
      have hone : List.countP (fun s => s.isSome) [some cells[k + n]] = 1 := by
        simp [List.countP_cons]
      rw [hone]
      omega
    · rw [List.getElem?_eq_none (by omega)]
      have hzero : List.countP (fun s => s.isSome) [(none : Option α)] = 0 := by
        simp [List.countP_cons]
      rw [hzero]
      omega

theorem countP_isNone_row {α : Type} (cells : List α) (k n : Nat) :
    ((List.range n).map fun j => cells[k + j]?).countP (fun s => s.isNone)
      = n - min n (cells.length - k) := by
  induction n with
  | zero => simp
  | succ n ih =>
    rw [List.range_succ, List.map_append, List.countP_append, ih]
    simp only [List.map_cons, List.map_nil]
    by_cases h : k + n < cells.length
    · rw [List.getElem?_eq_getElem h]
      have hzero : List.countP (fun s => s.isNone) [some cells[k + n]] = 0 := by
        simp [List.countP_cons]
      rw [hzero]
      omega
    · rw [List.getElem?_eq_none (by omega)]
      have hone : List.countP (fun s => s.isNone) [(none : Option α)] = 1 := by
        simp [List.countP_cons]
      rw [hone]
      omega

theorem sum_min_rows (cols : Nat) : ∀ (rows m : Nat),
    ((List.range rows).map fun r => min cols (m - r * cols)).sum = min (rows * cols) m := by
  intro rows
  induction rows with
  | zero =>
    intro m
    simp
  | succ rows ih =>
    intro m
    rw [List.range_succ_eq_map, List.map_cons, List.map_map, List.sum_cons]
    have hmap : (List.range rows).map ((fun r => min cols (m - r * cols)) ∘ Nat.succ)
        = (List.range rows).map fun r => min cols ((m - cols) - r * cols) := by
      refine List.map_congr_left fun r _ => ?_
      simp only [Function.comp]
      congr 1
      rw [Nat.succ_mul]
      omega
    rw [hmap, ih, Nat.succ_mul]
    omega

theorem countP_none_add_some {α : Type} (row : List (Option α)) :
    row.countP (fun s => s.isNone) + row.countP (fun s => s.isSome) = row.length := by
  induction row with
  | nil => rfl
  | cons s row ih =>
    cases s <;> simp [List.countP_cons, ih] <;> omega

theorem placeholder_add_populated {α : Type} (pg : GridPage α) :
    placeholderCount pg + populatedCount pg = (pg.map List.length).sum := by
  induction pg with
  | nil => rfl
  | cons row pg ih =>
    simp only [placeholderCount, populatedCount, List.map_cons, List.sum_cons] at *
    have hrow := countP_none_add_some row
    omega

theorem specPage_populatedCount {α : Type} (cols rows : Nat) (cells : List α) (p : Nat) :
    populatedCount (specPage cols rows cells p)
      = min (rows * cols) (cells.length - p * (cols * rows)) := by
  unfold populatedCount specPage
  rw [List.map_map]
  have hmap : (List.range rows).map
      ((fun row => row.countP fun s => s.isSome) ∘ fun i =>
        (List.range cols).map fun j => cells[p * (cols * rows) + i * cols + j]?)
      = (List.range rows).map fun i =>
          min cols ((cells.length - p * (cols * rows)) - i * cols) := by
    refine List.map_congr_left fun i _ => ?_
    simp only [Function.comp]
    rw [countP_isSome_row]
    omega
  rw [hmap, sum_min_rows]

theorem specPage_length_sum {α : Type} (cols rows : Nat) (cells : List α) (p : Nat) :
    ((specPage cols rows cells p).map List.length).sum = rows * cols := by
  unfold specPage
  rw [List.map_map]
  have hmap : (List.range rows).map
      (List.length ∘ fun i =>
        (List.range cols).map fun j => cells[p * (cols * rows) + i * cols + j]?)
      = (List.range rows).map fun _ => cols := by
    refine List.map_congr_left fun i _ => ?_
    simp [Function.comp]
  rw [hmap, List.map_const', List.length_range, List.sum_replicate, smul_eq_mul]

theorem specPage_placeholderCount {α : Type} (cols rows : Nat) (cells : List α) (p : Nat) :
    placeholderCount (specPage cols rows cells p)
      = rows * cols - min (rows * cols) (cells.length - p * (cols * rows)) := by
  have h1 := placeholder_add_populated (specPage cols rows cells p)
  rw [specPage_populatedCount, specPage_length_sum] at h1
  omega

/-! ## Claim theorems for the layout engine -/

/-- Slot lookup in a pagination result: page `p`, row `r`, column `c`. -/
def cellAt {α : Type} (res : Option (List (GridPage α))) (p r c : Nat) :
    Option (Option α) :=
  res.bind fun ps => ps[p]?.bind fun pg => pg[r]?.bind fun row => row[c]?

/-- C2: for a non-degenerate grid, pagination is order-preserving: the
cell at batch index `i` lands on page `i / cellsPerPage`, row
`(i % cellsPerPage) / cols`, column `(i % cellsPerPage) % cols`, where
`cellsPerPage = cols * rowsPerPage` — independent of the cells' content
(the statement is polymorphic in the cell type and the cell value). -/
theorem paginate_order_preserving {α : Type} {cols rows : Nat} (cells : List α)
    {i : Nat} {x : α} (hc : 0 < cols) (hr : 0 < rows) (hx : cells[i]? = some x) :
    cellAt (generate_pages cols rows cells) (i / (cols * rows))
      ((i % (cols * rows)) / cols) ((i % (cols * rows)) % cols) = some (some x) := by
  have hcpp : 0 < cols * rows := Nat.mul_pos hc hr
  have hi : i < cells.length := by
    by_contra h
    rw [List.getElem?_eq_none (by omega)] at hx
    cases hx
  have hp : i / (cols * rows) < pageCount (cols * rows) cells.length := by
    unfold pageCount
    have h1 : cells.length + cols * rows - 1 = (cells.length - 1) + cols * rows := by
      omega
    rw [h1, Nat.add_div_right _ hcpp]
    have h2 : i / (cols * rows) ≤ (cells.length - 1) / (cols * rows) :=
      Nat.div_le_div_right (by omega)
    omega
  have hrow : i % (cols * rows) / cols < rows := by
    rw [Nat.div_lt_iff_lt_mul hc]
    have hmod : i % (cols * rows) < cols * rows := Nat.mod_lt i hcpp
    have hcomm : cols * rows = rows * cols := Nat.mul_comm cols rows
    omega
  have hcol : i % (cols * rows) % cols < cols := Nat.mod_lt _ hc
  rw [cellAt, generate_pages_eq hc hr, Option.some_bind]
  unfold pagesSpec specPage
  rw [List.getElem?_map, List.getElem?_range hp, Option.map_some', Option.some_bind,
    List.getElem?_map, List.getElem?_range hrow, Option.map_some', Option.some_bind,
    List.getElem?_map, List.getElem?_range hcol, Option.map_some']
  have e1 : i / (cols * rows) * (cols * rows) + i % (cols * rows) = i :=
    Nat.div_add_mod' i (cols * rows)
  have e2 : i % (cols * rows) / cols * cols + i % (cols * rows) % cols
      = i % (cols * rows) := Nat.div_add_mod' (i % (cols * rows)) cols
  have hidx : i / (cols * rows) * (cols * rows) + i % (cols * rows) / cols * cols
      + i % (cols * rows) % cols = i := by omega
  rw [hidx, hx]

theorem paginate_order_preserving_witness :
    cellAt (generate_pages 2 2 [10, 11, 12, 13, 14]) (4 / (2 * 2))
      ((4 % (2 * 2)) / 2) ((4 % (2 * 2)) % 2) = some (some 14) :=
  paginate_order_preserving [10, 11, 12, 13, 14] (by decide) (by decide) rfl

/-- C3: for a non-degenerate grid the number of pages is exactly
`ceil(len(cells) / cellsPerPage)`; an empty cell list yields zero pages
(not one empty page); exactly `cellsPerPage` cells yield exactly one page
with no placeholder slots. -/
theorem paginate_page_count {α : Type} (cols rows : Nat) (cells : List α)
    (hc : 0 < cols) (hr : 0 < rows) :
    Option.map List.length (generate_pages cols rows cells)
        = some ((cells.length + cols * rows - 1) / (cols * rows)) ∧
    (cells = [] → generate_pages cols rows cells = some []) ∧
    (cells.length = cols * rows →
      ∃ pg, generate_pages cols rows cells = some [pg] ∧ placeholderCount pg = 0) := by
  have hcpp : 0 < cols * rows := Nat.mul_pos hc hr
  refine ⟨?_, ?_, ?_⟩
  · rw [generate_pages_eq hc hr, Option.map_some']
    congr 1
    unfold pagesSpec
    rw [List.length_map, List.length_range]
    rfl
  · rintro rfl
    rw [generate_pages_eq hc hr, pagesSpec_nil hc hr]
  · intro hlen
    refine ⟨specPage cols rows cells 0, ?_, ?_⟩
    · rw [generate_pages_eq hc hr]
      unfold pagesSpec
      rw [hlen]
      have hpc : pageCount (cols * rows) (cols * rows) = 1 := by
        unfold pageCount
        have h1 : cols * rows + cols * rows - 1 = (cols * rows - 1) + cols * rows := by
          omega
        rw [h1, Nat.add_div_right _ hcpp, Nat.div_eq_of_lt (by omega)]
      rw [hpc, show List.range 1 = [0] from rfl]
      rfl
    · rw [specPage_placeholderCount]
      have hcomm : cols * rows = rows * cols := Nat.mul_comm cols rows
      omega

theorem paginate_page_count_witness :
    Option.map List.length (generate_pages 2 1 [5, 6])
        = some ((([5, 6] : List Nat).length + 2 * 1 - 1) / (2 * 1)) ∧
    (([5, 6] : List Nat) = [] → generate_pages 2 1 [5, 6] = some []) ∧
    (([5, 6] : List Nat).length = 2 * 1 →
      ∃ pg, generate_pages 2 1 [5, 6] = some [pg] ∧ placeholderCount pg = 0) :=
  paginate_page_count 2 1 [5, 6] (by decide) (by decide)

/-- C4: every generated page, including the last partially-filled one,
has exactly `rowsPerPage` rows of exactly `cols` slots; for
`cellsPerPage + 1` input cells the result is two pages, the second with
exactly one populated slot and `cellsPerPage - 1` placeholders. -/
theorem paginate_uniform_grid {α : Type} (cols rows : Nat) (cells : List α)
    (hc : 0 < cols) (hr : 0 < rows) :
    (∀ ps, generate_pages cols rows cells = some ps →
      ∀ pg ∈ ps, pg.length = rows ∧ ∀ row ∈ pg, row.length = cols) ∧
    (cells.length = cols * rows + 1 →
      ∃ pg0 pg1, generate_pages cols rows cells = some [pg0, pg1] ∧
        populatedCount pg1 = 1 ∧ placeholderCount pg1 = cols * rows - 1) := by
  have hcpp : 0 < cols * rows := Nat.mul_pos hc hr
  constructor
  · intro ps hps pg hpg
    rw [generate_pages_eq hc hr] at hps
    have hps2 : pagesSpec cols rows cells = ps := Option.some.inj hps
    subst hps2
    unfold pagesSpec at hpg
    obtain ⟨p, _, rfl⟩ := List.mem_map.mp hpg
    constructor
    · unfold specPage
      rw [List.length_map, List.length_range]
    · intro row hrow
      unfold specPage at hrow
      obtain ⟨j, _, rfl⟩ := List.mem_map.mp hrow
      rw [List.length_map, List.length_range]
  · intro hlen
    refine ⟨specPage cols rows cells 0, specPage cols rows cells 1, ?_, ?_, ?_⟩
    · rw [generate_pages_eq hc hr]
      unfold pagesSpec
      rw [hlen]
      have hpc : pageCount (cols * rows) (cols * rows + 1) = 2 := by
        unfold pageCount
        have h1 : cols * rows + 1 + cols * rows - 1 = cols * rows + cols * rows := by
          omega
        rw [h1, Nat.add_div_right _ hcpp, Nat.div_self hcpp]
      rw [hpc]
      rfl
    · rw [specPage_populatedCount]
      have hcomm : cols * rows = rows * cols := Nat.mul_comm cols rows
      omega
    · rw [specPage_placeholderCount]
      have hcomm : cols * rows = rows * cols := Nat.mul_comm cols rows
      omega

theorem paginate_uniform_grid_witness :
    (∀ ps, generate_pages 1 2 [7, 8, 9] = some ps →
      ∀ pg ∈ ps, pg.length = 2 ∧ ∀ row ∈ pg, row.length = 1) ∧
    (([7, 8, 9] : List Nat).length = 1 * 2 + 1 →
      ∃ pg0 pg1, generate_pages 1 2 [7, 8, 9] = some [pg0, pg1] ∧
        populatedCount pg1 = 1 ∧ placeholderCount pg1 = 1 * 2 - 1) :=
  paginate_uniform_grid 1 2 [7, 8, 9] (by decide) (by decide)

/-! ## Pillow image model (for `create_qr_with_logo`, source lines 41-85)

The composition code manipulates Pillow images through `resize`,
`convert('RGBA')`, `split()`, and `paste`.  An image is modelled as its
dimensions, mode, and per-pixel channel values; the library operations
are modelled with the behaviour the source relies on (documented Pillow
semantics).  The QR encoding itself (lines 44-61, the external `qrcode`
library) enters the model as a parameter: the raster it renders for a
given destination. -/

/-- One pixel's channel values.  For modes without an alpha band the `a`
component is the implicit fully-opaque 255. -/
structure RGBAValue where
  r : Nat
  g : Nat
  b : Nat
  a : Nat
  deriving DecidableEq

/-- The Pillow modes that arise here.  (`PA` also carries alpha in Pillow
but cannot be produced by `Image.open` on common formats.) -/
inductive PilMode
  | RGBA
  | RGB
  | LA
  | L
  deriving DecidableEq

/-- Whether a Pillow mode carries an alpha channel: documented Pillow
behaviour — both `RGBA` and `LA` images have an alpha band. -/
def PilMode.hasAlpha : PilMode → Bool
  | PilMode.RGBA => true
  | PilMode.LA => true
  | _ => false

/-- A decoded raster image. -/
structure PilImage where
  width : Nat
  height : Nat
  mode : PilMode
  px : Nat → Nat → RGBAValue

/-- Resampling filters. -/
inductive Resampling
  | lanczos
  | bicubic
  | nearest
  deriving DecidableEq

/-- Filter of the logo resize: source line 64 passes
`Image.Resampling.LANCZOS` explicitly. -/
def logo_resize_resample : Resampling := Resampling.lanczos

/-- Filter of the final resize: source line 80 calls `resize(size)` with
no filter argument, which Pillow documents as defaulting to `BICUBIC`
for non-palette images (the raster is RGBA at this point). -/
def final_resize_resample : Resampling := Resampling.bicubic

/-- `Image.resize`: the result has exactly the requested dimensions and
keeps the mode; pixels are produced by resampling the source image.  The
resampling kernel itself is abstracted as coordinate scaling — the
claims under study depend on the output geometry and on which filter each
call site selects, not on the kernel arithmetic. -/
def PilImage.resize (img : PilImage) (size : Nat × Nat) (_resample : Resampling) :
    PilImage :=
  { width := size.1
    height := size.2
    mode := img.mode
    px := fun x y => img.px (x * img.width / size.1) (y * img.height / size.2) }

/-- `Image.convert('RGBA')` (source line 61): the mode becomes RGBA; size
and pixel content are preserved. -/
def PilImage.convertRGBA (img : PilImage) : PilImage :=
  { img with mode := PilMode.RGBA }

/-- The alpha band `image.split()[3]` of an RGBA image (source line 72). -/
def alphaBand (img : PilImage) : Nat → Nat → Nat :=
  fun x y => (img.px x y).a

/-- Pillow's per-band blend for an 8-bit mask value `m`:
`out = (bg * (255 - m) + fg * m) / 255`; `m = 0` keeps the background,
`m = 255` takes the foreground. -/
def blend (bg fg : RGBAValue) (m : Nat) : RGBAValue :=
  { r := (bg.r * (255 - m) + fg.r * m) / 255
    g := (bg.g * (255 - m) + fg.g * m) / 255
    b := (bg.b * (255 - m) + fg.b * m) / 255
    a := (bg.a * (255 - m) + fg.a * m) / 255 }

/-- `Image.paste(src, pos, mask)` (source line 77): inside the box of
`src` placed at `pos` (clipped to the destination bounds), pixels come
from `src`, blended through the mask when one is given; everywhere else
the destination is unchanged.  `pos` is signed, as in Pillow, since the
source's centring arithmetic goes negative when the logo is larger than
the QR raster. -/
def PilImage.paste (img src : PilImage) (pos : Int × Int)
    (mask : Option (Nat → Nat → Nat)) : PilImage :=
  { img with
    px := fun x y =>
      if 0 ≤ (x : Int) - pos.1 ∧ (x : Int) - pos.1 < (src.width : Int) ∧
          0 ≤ (y : Int) - pos.2 ∧ (y : Int) - pos.2 < (src.height : Int) then
        match mask with
        | none => src.px ((x : Int) - pos.1).toNat ((y : Int) - pos.2).toNat
        | some m =>
          blend (img.px x y) (src.px ((x : Int) - pos.1).toNat ((y : Int) - pos.2).toNat)
            (m ((x : Int) - pos.1).toNat ((y : Int) - pos.2).toNat)
      else img.px x y }

@[simp] theorem convertRGBA_width (img : PilImage) :
    img.convertRGBA.width = img.width := rfl

@[simp] theorem convertRGBA_height (img : PilImage) :
    img.convertRGBA.height = img.height := rfl

@[simp] theorem convertRGBA_px (img : PilImage) : img.convertRGBA.px = img.px := rfl

@[simp] theorem resize_mode (img : PilImage) (s : Nat × Nat) (f : Resampling) :
    (img.resize s f).mode = img.mode := rfl

@[simp] theorem resize_width (img : PilImage) (s : Nat × Nat) (f : Resampling) :
    (img.resize s f).width = s.1 := rfl

@[simp] theorem resize_height (img : PilImage) (s : Nat × Nat) (f : Resampling) :
    (img.resize s f).height = s.2 := rfl

/-- Logo placement, source lines 66-68:
`((qr_image.size[0] - logo_size[0]) // 2, (qr_image.size[1] - logo_size[1]) // 2)`
— Python `//` is floor division, `Int.fdiv`. -/
def logo_pos (qrSize logoSize : Nat × Nat) : Int × Int :=
  (((qrSize.1 : Int) - (logoSize.1 : Int)).fdiv 2,
   ((qrSize.2 : Int) - (logoSize.2 : Int)).fdiv 2)

/-- Source lines 61-77: convert the QR raster to RGBA, resize the logo
with LANCZOS, compute the centre position, build the mask from the
logo's alpha band exactly when the (resized) logo's mode is RGBA, and
paste the logo at that position through that mask. -/
def pasted_qr (qr_raster logo_image : PilImage) (logo_size : Nat × Nat) : PilImage :=
  PilImage.paste qr_raster.convertRGBA
    (logo_image.resize logo_size logo_resize_resample)
    (logo_pos (qr_raster.convertRGBA.width, qr_raster.convertRGBA.height) logo_size)
    (if (logo_image.resize logo_size logo_resize_resample).mode = PilMode.RGBA then
      some (alphaBand (logo_image.resize logo_size logo_resize_resample))
    else none)

/-- `create_qr_with_logo` after the QR encoding (source lines 61-85):
paste the resized logo centred on the RGBA raster, then resize the
result to the requested cell size (line 80, default filter).  The
PNG/base64 serialisation of lines 82-85 preserves the bitmap and is
outside the model. -/
def create_qr_with_logo (qr_raster logo_image : PilImage)
    (size logo_size : Nat × Nat) : PilImage :=
  (pasted_qr qr_raster logo_image logo_size).resize size final_resize_resample

/-- C5: the composed image has exactly the requested cell dimensions —
for every destination (the statement quantifies over the raster the
encoder renders for it, hence holds regardless of the destination's
length or the intermediate raster size) and every logo. -/
theorem create_qr_with_logo_size (qr_raster logo_image : PilImage)
    (size logo_size : Nat × Nat) :
    (create_qr_with_logo qr_raster logo_image size logo_size).width = size.1 ∧
    (create_qr_with_logo qr_raster logo_image size logo_size).height = size.2 :=
  ⟨rfl, rfl⟩

theorem fdiv_two_ofNat (m : Nat) : (m : Int).fdiv (2 : Int) = ((m / 2 : Nat) : Int) := by
  have h := Int.ofNat_fdiv m 2
  rw [show ((2 : Nat) : Int) = (2 : Int) from rfl] at h
  exact h.symm

theorem logo_pos_eq_of_le {q l : Nat × Nat} (hw : l.1 ≤ q.1) (hh : l.2 ≤ q.2) :
    logo_pos q l
      = ((((q.1 - l.1) / 2 : Nat) : Int), (((q.2 - l.2) / 2 : Nat) : Int)) := by
  unfold logo_pos
  rw [show ((q.1 : Int) - (l.1 : Int)) = ((q.1 - l.1 : Nat) : Int) from
      (Int.ofNat_sub hw).symm,
    show ((q.2 : Int) - (l.2 : Int)) = ((q.2 - l.2 : Nat) : Int) from
      (Int.ofNat_sub hh).symm,
    fdiv_two_ofNat, fdiv_two_ofNat]

theorem paste_px_inside (img src : PilImage) (cx cy u v : Nat)
    (hu : u < src.width) (hv : v < src.height)
    (mask : Option (Nat → Nat → Nat)) :
    (img.paste src ((cx : Int), (cy : Int)) mask).px (cx + u) (cy + v)
      = (match mask with
        | none => src.px u v
        | some m => blend (img.px (cx + u) (cy + v)) (src.px u v) (m u v)) := by
  unfold PilImage.paste
  simp only
  have hu' : ((cx + u : Nat) : Int) - (cx : Int) = (u : Int) := by push_cast; ring
  have hv' : ((cy + v : Nat) : Int) - (cy : Int) = (v : Int) := by push_cast; ring
  rw [hu', hv']
  rw [if_pos ⟨Int.ofNat_nonneg u, Int.ofNat_lt.mpr hu, Int.ofNat_nonneg v,
    Int.ofNat_lt.mpr hv⟩]
  simp [Int.toNat_ofNat]

theorem paste_px_outside (img src : PilImage) (pos : Int × Int) (x y : Nat)
    (mask : Option (Nat → Nat → Nat))
    (h : ¬(0 ≤ (x : Int) - pos.1 ∧ (x : Int) - pos.1 < (src.width : Int) ∧
        0 ≤ (y : Int) - pos.2 ∧ (y : Int) - pos.2 < (src.height : Int))) :
    (img.paste src pos mask).px x y = img.px x y := by
  unfold PilImage.paste
  simp only
  rw [if_neg h]

theorem pasted_qr_px_inside (qr_raster logo_image : PilImage) (logo_size : Nat × Nat)
    (u v : Nat) (hu : u < logo_size.1) (hv : v < logo_size.2)
    (hw : logo_size.1 ≤ qr_raster.width) (hh : logo_size.2 ≤ qr_raster.height) :
    (pasted_qr qr_raster logo_image logo_size).px
        ((qr_raster.width - logo_size.1) / 2 + u)
        ((qr_raster.height - logo_size.2) / 2 + v)
      = if logo_image.mode = PilMode.RGBA then
          blend
            (qr_raster.px ((qr_raster.width - logo_size.1) / 2 + u)
              ((qr_raster.height - logo_size.2) / 2 + v))
            ((logo_image.resize logo_size logo_resize_resample).px u v)
            (alphaBand (logo_image.resize logo_size logo_resize_resample) u v)
        else (logo_image.resize logo_size logo_resize_resample).px u v := by
  unfold pasted_qr
  rw [logo_pos_eq_of_le (by simpa using hw) (by simpa using hh)]
  simp only [convertRGBA_width, convertRGBA_height]
  rw [paste_px_inside qr_raster.convertRGBA
    (logo_image.resize logo_size logo_resize_resample)
    ((qr_raster.width - logo_size.1) / 2) ((qr_raster.height - logo_size.2) / 2)
    u v hu hv]
  by_cases hm : logo_image.mode = PilMode.RGBA
  · simp [hm]
  · simp [hm]

/-- C6: the logo is pasted at the exact geometric centre of the QR
raster: with `cx = (W - logoW) / 2` and `cy = (H - logoH) / 2` (the
source's `(W - logoW) // 2` offsets), every pixel of the composite
inside the box `[cx, cx + logoW) × [cy, cy + logoH)` takes the pasted
logo value (blended through the alpha mask in RGBA mode, the raw resized
logo pixel otherwise), and every pixel outside that box is the untouched
QR pixel. -/
theorem compose_centers_logo (qr_raster logo_image : PilImage) (logo_size : Nat × Nat)
    (hw : logo_size.1 ≤ qr_raster.width) (hh : logo_size.2 ≤ qr_raster.height) :
    (∀ u v : Nat, u < logo_size.1 → v < logo_size.2 →
      (pasted_qr qr_raster logo_image logo_size).px
          ((qr_raster.width - logo_size.1) / 2 + u)
          ((qr_raster.height - logo_size.2) / 2 + v)
        = if logo_image.mode = PilMode.RGBA then
            blend
              (qr_raster.px ((qr_raster.width - logo_size.1) / 2 + u)
                ((qr_raster.height - logo_size.2) / 2 + v))
              ((logo_image.resize logo_size logo_resize_resample).px u v)
              (alphaBand (logo_image.resize logo_size logo_resize_resample) u v)
          else (logo_image.resize logo_size logo_resize_resample).px u v) ∧
    (∀ x y : Nat,
      (x < (qr_raster.width - logo_size.1) / 2 ∨
        (qr_raster.width - logo_size.1) / 2 + logo_size.1 ≤ x ∨
        y < (qr_raster.height - logo_size.2) / 2 ∨
        (qr_raster.height - logo_size.2) / 2 + logo_size.2 ≤ y) →
      (pasted_qr qr_raster logo_image logo_size).px x y = qr_raster.px x y) := by
  constructor
  · intro u v hu hv
    exact pasted_qr_px_inside qr_raster logo_image logo_size u v hu hv hw hh
  · intro x y hxy
    unfold pasted_qr
    rw [logo_pos_eq_of_le (by simpa using hw) (by simpa using hh)]
    simp only [convertRGBA_width, convertRGBA_height]
    rw [paste_px_outside]
    · rfl
    · simp only [resize_width, resize_height]
      omega

/-- Sample 4x4 QR raster with constant pixels, for concrete instances. -/
def qrSample : PilImage :=
  { width := 4, height := 4, mode := PilMode.RGB, px := fun _ _ => ⟨9, 9, 9, 255⟩ }

/-- Sample 2x2 alpha-less logo. -/
def logoOpaque : PilImage :=
  { width := 2, height := 2, mode := PilMode.RGB, px := fun _ _ => ⟨1, 1, 1, 255⟩ }

/-- Sample 2x2 QR raster. -/
def qrSmall : PilImage :=
  { width := 2, height := 2, mode := PilMode.RGB, px := fun _ _ => ⟨1, 2, 3, 255⟩ }

/-- Sample 1x1 LA-mode logo whose alpha band is 0 everywhere (a fully
transparent greyscale-plus-alpha image, as `Image.open` yields for a
greyscale PNG with an alpha channel). -/
def logoLA : PilImage :=
  { width := 1, height := 1, mode := PilMode.LA, px := fun _ _ => ⟨7, 7, 7, 0⟩ }

theorem compose_centers_logo_witness :
    (pasted_qr qrSample logoOpaque (2, 2)).px 1 1 = ⟨1, 1, 1, 255⟩ :=
  (compose_centers_logo qrSample logoOpaque (2, 2) (by decide) (by decide)).1 0 0
    (by decide) (by decide)

/-- Masking with value 0 (a fully transparent mask pixel) keeps the
background pixel exactly. -/
theorem blend_zero (bg fg : RGBAValue) : blend bg fg 0 = bg := by
  unfold blend
  have h : ∀ c d : Nat, (c * (255 - 0) + d * 0) / 255 = c := by
    intro c d
    simp [Nat.mul_div_cancel]
  rw [h bg.r fg.r, h bg.g fg.g, h bg.b fg.b, h bg.a fg.a]

/-- C7 counterexample: an LA-mode logo carries an alpha channel (Pillow
gives RGBA and LA images an alpha band), and here its alpha is 0 at
every pixel — fully transparent — yet the composite takes the logo
pixel, not the preserved QR pixel, because the source (line 71) builds a
mask only when `mode == 'RGBA'` and pastes opaquely otherwise. -/
theorem alpha_mask_claim_false :
    PilMode.hasAlpha logoLA.mode = true ∧
    alphaBand (logoLA.resize (1, 1) logo_resize_resample) 0 0 = 0 ∧
    (pasted_qr qrSmall logoLA (1, 1)).px 0 0 = ⟨7, 7, 7, 0⟩ ∧
    qrSmall.px 0 0 ≠ ⟨7, 7, 7, 0⟩ := by
  refine ⟨rfl, rfl, ?_, by decide⟩
  decide

/-- C7 amended: the composite uses the logo's own alpha band as the
paste mask exactly when the logo's mode is RGBA; a logo in any other
mode — including LA, which carries an alpha channel — is composited
opaquely.  In the RGBA case a fully transparent logo pixel leaves the
corresponding QR pixel unchanged; in the opaque case the logo pixel
overwrites the QR pixel regardless of any alpha data. -/
theorem mask_policy (qr_raster logo_image : PilImage) (logo_size : Nat × Nat)
    (u v : Nat) (hu : u < logo_size.1) (hv : v < logo_size.2)
    (hw : logo_size.1 ≤ qr_raster.width) (hh : logo_size.2 ≤ qr_raster.height) :
    (logo_image.mode = PilMode.RGBA →
      alphaBand (logo_image.resize logo_size logo_resize_resample) u v = 0 →
      (pasted_qr qr_raster logo_image logo_size).px
          ((qr_raster.width - logo_size.1) / 2 + u)
          ((qr_raster.height - logo_size.2) / 2 + v)
        = qr_raster.px ((qr_raster.width - logo_size.1) / 2 + u)
            ((qr_raster.height - logo_size.2) / 2 + v)) ∧
    (logo_image.mode ≠ PilMode.RGBA →
      (pasted_qr qr_raster logo_image logo_size).px
          ((qr_raster.width - logo_size.1) / 2 + u)
          ((qr_raster.height - logo_size.2) / 2 + v)
        = (logo_image.resize logo_size logo_resize_resample).px u v) := by
  constructor
  · intro hm ha
    rw [pasted_qr_px_inside qr_raster logo_image logo_size u v hu hv hw hh,
      if_pos hm, ha, blend_zero]
  · intro hm
    rw [pasted_qr_px_inside qr_raster logo_image logo_size u v hu hv hw hh,
      if_neg hm]

theorem mask_policy_witness :
    (pasted_qr qrSmall logoLA (1, 1)).px 0 0
      = (logoLA.resize (1, 1) logo_resize_resample).px 0 0 :=
  (mask_policy qrSmall logoLA (1, 1) 0 0 (by decide) (by decide) (by decide)
    (by decide)).2 (by decide)

/-- C8 counterexample: the two resize call sites do not share one
resampling policy — the claim that both steps use the same (Lanczos)
filter is false of the code. -/
theorem resample_policy_differs : ¬(logo_resize_resample = final_resize_resample) := by
  decide

/-- C8 amended: the logo resize (source line 64) uses LANCZOS, while the
final resize (source line 80) passes no filter and therefore uses
Pillow's default BICUBIC — a different resampling policy. -/
theorem resample_policy_actual :
    logo_resize_resample = Resampling.lanczos ∧
    final_resize_resample = Resampling.bicubic :=
  ⟨rfl, rfl⟩

/-! ## Logo download and batch generation (source lines 24-39, 87-238)

`download_image` wraps the HTTP fetch and decode in a `try/except` that
returns `None` on any failure: `requests.get` raising (network error),
`raise_for_status` raising on a 4xx/5xx status, or `Image.open` raising
on an undecodable body.  `generate_html` checks the result before the
QR-generation loop (lines 112-114) and raises before composing any
symbol and before the output file is opened (line 237). -/

/-- One entry of `config['image_urls']`. -/
structure UrlItem where
  name : String
  url : String
  deriving DecidableEq

/-- The configuration fields `generate_html` reads (lines 94-96, 112,
119). -/
structure Config where
  xsize : Nat
  ysize : Nat
  logox : Nat
  logoy : Nat
  logo : String
  image_urls : List UrlItem

/-- The failure `generate_html` raises when the logo download returned
nothing (line 114). -/
inductive GenError
  | logoDownloadFailed
  deriving DecidableEq

/-- `download_image` (lines 24-39): the HTTP exchange enters as data —
either a transport error or a status code with a body — together with
the decoder.  `raise_for_status` raises exactly on status >= 400; any
raised exception is caught and `None` returned. -/
def download_image {β : Type} (response : Except String (Nat × β))
    (decodeImage : β → Option PilImage) : Option PilImage :=
  match response with
  | Except.error _ => none
  | Except.ok (status, body) => if status < 400 then decodeImage body else none

/-- `generate_html` (lines 87-238) after the config read: check the
downloaded logo (lines 112-114, raising before any composition when it
is missing), compose one QR cell per batch item in order (lines
117-122), and paginate (lines 203-229).  The emitted markup document is
represented by its paged structure; `none` in the success payload means
the pagination loop never terminates (degenerate grid), in which case no
file is ever written either. -/
def generate_html (config : Config) (logo_result : Option PilImage)
    (qr_render : String → PilImage) :
    Except GenError (Option (List (GridPage (String × PilImage)))) :=
  match logo_result with
  | none => Except.error GenError.logoDownloadFailed
  | some logo_image =>
    Except.ok (generate_pages (cols config.xsize) (max_rows_per_page config.ysize)
      (config.image_urls.map fun item =>
        (item.name, create_qr_with_logo (qr_render item.url) logo_image
          (config.xsize, config.ysize) (config.logox, config.logoy))))

/-- C9: a logo fetch answered with status 404 yields no logo, as does an
undecodable body; and whenever the download yields no logo,
`generate_html` aborts with the logo-failure error — for every batch —
producing no document and never reaching the composition step (the
composing branch is only taken when a logo is present). -/
theorem logo_fetch_failure_aborts {β : Type} (config : Config)
    (qr_render : String → PilImage) (body : β)
    (decodeImage : β → Option PilImage) :
    download_image (Except.ok (404, body)) decodeImage = none ∧
    (decodeImage body = none →
      download_image (Except.ok (200, body)) decodeImage = none) ∧
    (∀ response : Except String (Nat × β),
      download_image response decodeImage = none →
        generate_html config (download_image response decodeImage) qr_render
          = Except.error GenError.logoDownloadFailed ∧
        ∀ pages, generate_html config (download_image response decodeImage) qr_render
          ≠ Except.ok pages) := by
  refine ⟨rfl, ?_, ?_⟩
  · intro h
    simpa [download_image] using h
  · intro response hfail
    rw [hfail]
    exact ⟨rfl, fun pages h => by cases h⟩

/-- Placeholder logo URL for the concrete configuration below. -/
def logoUrlSample : String := "https://i.imgur.com/logo.png"

/-- A concrete configuration. -/
def configSample : Config :=
  { xsize := 300, ysize := 300, logox := 50, logoy := 50
    logo := logoUrlSample, image_urls := [] }

theorem logo_fetch_failure_aborts_witness :
    download_image (Except.ok (404, ())) (fun _ : Unit => some qrSample) = none ∧
    generate_html configSample
        (download_image (Except.ok (404, ())) (fun _ : Unit => some qrSample))
        (fun _ => qrSample)
      = Except.error GenError.logoDownloadFailed :=
  ⟨(logo_fetch_failure_aborts configSample (fun _ => qrSample) ()
      (fun _ => some qrSample)).1,
    ((logo_fetch_failure_aborts configSample (fun _ => qrSample) ()
        (fun _ => some qrSample)).2.2 (Except.ok (404, ()))
      (logo_fetch_failure_aborts configSample (fun _ => qrSample) ()
        (fun _ => some qrSample)).1).1⟩

/-! ## Configuration update from CSV (source lines 240-260) -/

/-- JSON values as they occur in the configuration object. -/
inductive JsonValue
  | num : Int → JsonValue
  | str : String → JsonValue
  | items : List UrlItem → JsonValue
  deriving DecidableEq

/-- Python dict assignment `config['image_urls'] = ...` on an object
decoded by `json.load` (unique keys, insertion order kept): replace the
value at the existing key in place, or append the key at the end. -/
def dict_set : List (String × JsonValue) → String → JsonValue → List (String × JsonValue)
  | [], k, v => [(k, v)]
  | (k', v') :: rest, k, v =>
    if k' = k then (k, v) :: rest else (k', v') :: dict_set rest k v

/-- Source lines 244-249: one batch item per CSV row, with
`row["name"].strip()` and `row["url"].strip()`. -/
def csv_image_urls (rows : List (String × String)) : List UrlItem :=
  rows.map fun row => { name := row.1.trim, url := row.2.trim }

/-- The configuration key the import step assigns (line 256). -/
def image_urls_key : String := "image_urls"

/-- `update_json_from_csv` (lines 240-260): build the batch-item list
from the CSV rows, read the JSON config, assign `config['image_urls']`,
and write the whole object back. -/
def update_json_from_csv (rows : List (String × String))
    (config : List (String × JsonValue)) : List (String × JsonValue) :=
  dict_set config image_urls_key (JsonValue.items (csv_image_urls rows))

theorem dict_set_lookup_ne (config : List (String × JsonValue)) (k k' : String)
    (v : JsonValue) (h : k' ≠ k) :
    (dict_set config k v).lookup k' = config.lookup k' := by
  induction config with
  | nil =>
    simp only [dict_set, List.lookup]
    rw [show (k' == k) = false from beq_eq_false_iff_ne.mpr h]
  | cons kv rest ih =>
    obtain ⟨k0, v0⟩ := kv
    by_cases hk : k0 = k
    · subst hk
      simp only [dict_set, if_pos rfl, List.lookup]
      rw [show (k' == k0) = false from beq_eq_false_iff_ne.mpr h]
    · simp only [dict_set, if_neg hk, List.lookup, ih]

theorem dict_set_lookup_eq (config : List (String × JsonValue)) (k : String)
    (v : JsonValue) :
    (dict_set config k v).lookup k = some v := by
  induction config with
  | nil =>
    simp only [dict_set, List.lookup]
    rw [show (k == k) = true from beq_self_eq_true k]
  | cons kv rest ih =>
    obtain ⟨k0, v0⟩ := kv
    by_cases hk : k0 = k
    · subst hk
      simp only [dict_set, if_pos rfl, List.lookup]
      rw [show (k0 == k0) = true from beq_self_eq_true k0]
    · simp only [dict_set, if_neg hk, List.lookup, ih]
      rw [show (k == k0) = false from beq_eq_false_iff_ne.mpr (Ne.symm hk)]

/-- C10: the tabular import replaces only the `image_urls` entry of the
configuration — every other key keeps exactly its previous value — and
`image_urls` becomes the whitespace-stripped CSV rows. -/
theorem update_json_frame (rows : List (String × String))
    (config : List (String × JsonValue)) (k : String) (hk : k ≠ image_urls_key) :
    (update_json_from_csv rows config).lookup k = config.lookup k ∧
    (update_json_from_csv rows config).lookup image_urls_key
      = some (JsonValue.items (csv_image_urls rows)) :=
  ⟨dict_set_lookup_ne config image_urls_key k _ hk,
    dict_set_lookup_eq config image_urls_key _⟩

/-- Key of the cell-width entry, for the concrete instance below. -/
def xsize_key : String := "xsize"

theorem update_json_frame_witness :
    (update_json_from_csv [("a", " u ")]
        [(xsize_key, JsonValue.num 300), (image_urls_key, JsonValue.items [])]).lookup
        xsize_key
      = [(xsize_key, JsonValue.num 300),
          (image_urls_key, JsonValue.items [])].lookup xsize_key ∧
    (update_json_from_csv [("a", " u ")]
        [(xsize_key, JsonValue.num 300), (image_urls_key, JsonValue.items [])]).lookup
        image_urls_key
      = some (JsonValue.items (csv_image_urls [("a", " u ")])) :=
  update_json_frame [("a", " u ")]
    [(xsize_key, JsonValue.num 300), (image_urls_key, JsonValue.items [])]
    xsize_key (by decide)

end QRGrid
